import Mathlib

/-!
Verification of the OIG exclusion screener (`oig_screener.py`).

The embedding models Python strings as `List Char` (the roster and
exclusion data are ASCII text), pandas string cells as `Option (List Char)`
(`none` models NaN/missing), and a pandas DataFrame as a column-name list
together with association-list rows.  Pure helper functions mirror the
source line by line; the DataFrame-mutating statements of
`screen_against_oig` are modelled by returning the updated tables.
-/

set_option maxRecDepth 10000

namespace OIG

/-- Python strings, as character lists. -/
abbrev PyStr := List Char

/-- A pandas string cell: `none` models NaN (a missing value). -/
abbrev Cell := Option PyStr

/-- Shorthand for turning a Lean string literal into a `PyStr`. -/
def pstr (s : String) : PyStr := s.data

/-- The six ASCII whitespace characters recognised by Python's `str.strip`
and `str.split`. -/
def pyIsSpace (c : Char) : Bool :=
  c == ' ' || c == '\t' || c == '\n' || c == '\r' || c == '\x0b' || c == '\x0c'

/-- Python `str.upper` on one character (ASCII range, which is all the
screener's data uses). -/
def pyToUpper (c : Char) : Char :=
  if 'a' ≤ c ∧ c ≤ 'z' then Char.ofNat (c.toNat - 32) else c

/-- Python `str.upper`. -/
def pyUpperS (s : PyStr) : PyStr := s.map pyToUpper

/-- Python `str.strip`: drop leading and trailing whitespace. -/
def pyStrip (s : PyStr) : PyStr :=
  ((s.dropWhile pyIsSpace).reverse.dropWhile pyIsSpace).reverse

/-- Python `s.split(",", 1)`: the part before the first comma, and the
remainder after it when a comma exists. -/
def splitComma : PyStr → PyStr × Option PyStr
  | [] => ([], none)
  | c :: cs =>
    if c == ',' then ([], some cs)
    else
      let p := splitComma cs
      (c :: p.1, p.2)

/-- Accumulator loop for Python's separator-less `str.split`. -/
def wsTokens : PyStr → PyStr → List PyStr
  | [], acc => if acc.isEmpty then [] else [acc.reverse]
  | c :: cs, acc =>
    if pyIsSpace c then
      if acc.isEmpty then wsTokens cs [] else acc.reverse :: wsTokens cs []
    else wsTokens cs (c :: acc)

/-- Python `str.split()` with no separator: tokens delimited by whitespace
runs, with no empty tokens. -/
def pySplitWs (s : PyStr) : List PyStr := wsTokens s []

/-- `parse_last` from `load_employee_list`: `name_str.split(",", 1)[0].strip().upper()`. -/
def parse_last (s : PyStr) : PyStr := pyUpperS (pyStrip (splitComma s).1)

/-- `parse_first` from `load_employee_list`: empty when there is no comma,
otherwise the first whitespace token of the part after the comma,
stripped and upper-cased. -/
def parse_first (s : PyStr) : PyStr :=
  match (splitComma s).2 with
  | none => []
  | some seg =>
    match pySplitWs (pyStrip seg) with
    | [] => []
    | t :: _ => pyUpperS (pyStrip t)

/-- Modelled from the spec's words for the Name Normalizer (section 4.2):
split on the first comma only; the substring before the comma, trimmed and
upper-cased, is the last name; with no second segment the first name is
empty; otherwise the first whitespace-delimited token of the second
segment, trimmed and upper-cased, is the first name. -/
def normalizeRosterName_spec (raw : PyStr) : PyStr × PyStr :=
  if raw.any (fun c => c == ',') then
    let lastSeg := raw.takeWhile (fun c => !(c == ','))
    let rest := (raw.dropWhile (fun c => !(c == ','))).tail
    let first :=
      match pySplitWs (pyStrip rest) with
      | [] => []
      | t :: _ => pyUpperS (pyStrip t)
    (pyUpperS (pyStrip lastSeg), first)
  else (pyUpperS (pyStrip raw), [])

deriving instance DecidableEq for Except

/-- Substring containment, Python's `needle in hay` on strings. -/
def containsSub : PyStr → PyStr → Bool
  | [], needle => needle.isEmpty
  | c :: cs, needle => needle.isPrefixOf (c :: cs) || containsSub cs needle

/-- Substring test on Lean `String`s (column names are modelled as
`String`, since only whole-name comparisons and substring scans are done
on them). -/
def strContains (s pat : String) : Bool := containsSub s.data pat.data

/-- The error message raised by `find_name_columns`. -/
def schemaErrorMsg : String :=
  "Could not identify FIRST_NAME or LAST_NAME columns in OIG CSV."

/-- The resolver `find_name_columns` from the source: scan the column
names for `FIRST`/`LAST`/`DATE` substrings, with positional fallbacks for
the date columns. -/
def find_name_columns (cols : List String) :
    Except String (String × String × Option String × Option String) :=
  let first_cols := cols.filter (fun c => strContains c "FIRST")
  let last_cols := cols.filter (fun c => strContains c "LAST")
  let date_cols := cols.filter (fun c => strContains c "DATE")
  match first_cols, last_cols with
  | [], _ => .error schemaErrorMsg
  | _ :: _, [] => .error schemaErrorMsg
  | fc :: _, lc :: _ =>
    let start0 := date_cols.find? (fun c => strContains c "START" || strContains c "EFFECT")
    let end0 := date_cols.find? (fun c => strContains c "END" || strContains c "REINSTATEMENT")
    let startc := match start0 with
      | some c => some c
      | none => date_cols.head?
    let endc := match end0 with
      | some c => some c
      | none => date_cols.get? 1
    .ok (fc, lc, startc, endc)

/-- Modelled from the spec's words for the Column Resolver (section 4.1):
first column containing `FIRST`, first containing `LAST` (SchemaError if
either is absent); start date is the first `DATE` column also containing
`START` or `EFFECT`, else the first `DATE` column overall; end date is the
first `DATE` column also containing `END` or `REINSTATEMENT`, else the
second `DATE` column in original order, if one exists. -/
def resolveColumns_spec (cols : List String) :
    Except String (String × String × Option String × Option String) :=
  match cols.find? (fun c => strContains c "FIRST"),
        cols.find? (fun c => strContains c "LAST") with
  | some fc, some lc =>
    let startc :=
      match cols.find? (fun c =>
          strContains c "DATE" && (strContains c "START" || strContains c "EFFECT")) with
      | some c => some c
      | none => cols.find? (fun c => strContains c "DATE")
    let endc :=
      match cols.find? (fun c =>
          strContains c "DATE" && (strContains c "END" || strContains c "REINSTATEMENT")) with
      | some c => some c
      | none => (cols.filter (fun c => strContains c "DATE")).get? 1
    .ok (fc, lc, startc, endc)
  | _, _ => .error schemaErrorMsg

/-- A row of a DataFrame: an association list from column label to cell,
in column order. -/
abbrev TRow := List (String × Cell)

/-- A pandas DataFrame of string cells. -/
structure Table where
  cols : List String
  rows : List TRow

deriving DecidableEq

/-- Reading one labelled field of a row (`row[c]` / `df[c]` per row);
`none` both for a NaN cell and for an absent label. -/
def getCellR (r : TRow) (c : String) : Cell :=
  match r.find? (fun p => p.1 == c) with
  | some p => p.2
  | none => none

/-- Replace the value stored at a label inside a row. -/
def setAssoc : TRow → String → Cell → TRow
  | [], _, _ => []
  | p :: ps, c, v => if p.1 == c then (c, v) :: ps else p :: setAssoc ps c v

/-- The assignment `df[c] = f(row)`: overwrite the column when the label
exists, otherwise append it on the right (pandas column order). -/
def setColF (t : Table) (c : String) (f : TRow → Cell) : Table :=
  if t.cols.contains c then
    { cols := t.cols, rows := t.rows.map (fun r => setAssoc r c (f r)) }
  else
    { cols := t.cols ++ [c], rows := t.rows.map (fun r => r ++ [(c, f r)]) }

/-- Column projection `df[cs]`. -/
def selectCols (cs : List String) (t : Table) : Table :=
  { cols := cs, rows := t.rows.map (fun r => cs.map (fun c => (c, getCellR r c))) }

/-- `df.rename(columns=f)`: relabel the columns. -/
def renameMap (f : String → String) (t : Table) : Table :=
  { cols := t.cols.map f, rows := t.rows.map (List.map (fun p => (f p.1, p.2))) }

/-- `drop_duplicates(subset=...)` keeping the first occurrence of each
key, with an accumulator of the keys already seen. -/
def dedupBy {α β : Type} [DecidableEq β] (key : α → β) : List α → List β → List α
  | [], _ => []
  | x :: xs, seen =>
    if key x ∈ seen then dedupBy key xs seen
    else x :: dedupBy key xs (key x :: seen)

/-- Inner-join `pd.merge(lt, rt, left_on=lks, right_on=rks, how="inner")`:
for each left row in order, one concatenated output row per matching right
row in order. -/
def mergeInner (lt rt : Table) (lks rks : List String) : Table :=
  { cols := lt.cols ++ rt.cols,
    rows := lt.rows.flatMap (fun lr =>
      (rt.rows.filter (fun rr =>
        decide (lks.map (getCellR lr) = rks.map (getCellR rr)))).map (fun rr => lr ++ rr)) }

/-- The exclusion-side normalisation `fillna("").str.upper().str.strip()`. -/
def normField (v : Cell) : PyStr := pyStrip (pyUpperS (v.getD []))

/-- The roster-side normalisation `.str.upper().str.strip()` (no `fillna`,
so NaN propagates). -/
def empNormField (v : Cell) : Cell := v.map (fun s => pyStrip (pyUpperS s))

/-- The dedup / join key of an exclusion row: the values of
`OIG_LAST_UP` and `OIG_FIRST_UP`. -/
def oigKeyOf (r : TRow) : List Cell := ["OIG_LAST_UP", "OIG_FIRST_UP"].map (getCellR r)

/-- The join key of a roster row: the values of `EMP_LAST_UP` and
`EMP_FIRST_UP`. -/
def empKeyOf (r : TRow) : List Cell := ["EMP_LAST_UP", "EMP_FIRST_UP"].map (getCellR r)

/-- The `subset` column list built in `screen_against_oig`: the two key
columns, then `OIG_START_DATE` / `OIG_END_DATE` when resolved. -/
def subsetCols (sc ec : Option String) : List String :=
  ["OIG_LAST_UP", "OIG_FIRST_UP"]
    ++ (match sc with | some _ => ["OIG_START_DATE"] | none => [])
    ++ (match ec with | some _ => ["OIG_END_DATE"] | none => [])

/-- Lines 118-128 of the source: resolve the exclusion columns, write the
normalised key columns and the date copies into the exclusion table
(mutating it), project the subset columns, and deduplicate by key.
Returns (mutated exclusion table, subset before dedup, subset after
dedup). -/
def oigPrepared (oig : Table) : Except String (Table × Table × Table) :=
  match find_name_columns oig.cols with
  | .error e => .error e
  | .ok (fc, lc, sc, ec) =>
    let o1 := setColF oig "OIG_FIRST_UP" (fun r => some (normField (getCellR r fc)))
    let o2 := setColF o1 "OIG_LAST_UP" (fun r => some (normField (getCellR r lc)))
    let o3 := match sc with
      | some c => setColF o2 "OIG_START_DATE" (fun r => getCellR r c)
      | none => o2
    let o4 := match ec with
      | some c => setColF o3 "OIG_END_DATE" (fun r => getCellR r c)
      | none => o3
    let sub := selectCols (subsetCols sc ec) o4
    .ok (o4, sub, { cols := sub.cols, rows := dedupBy oigKeyOf sub.rows [] })

/-- Lines 130-131 of the source: write `EMP_LAST_UP` / `EMP_FIRST_UP`
into the roster table (mutating it). -/
def empWithUp (emp : Table) : Table :=
  setColF (setColF emp "EMP_LAST_UP" (fun r => empNormField (getCellR r "LAST_NAME")))
    "EMP_FIRST_UP" (fun r => empNormField (getCellR r "FIRST_NAME"))

/-- `screen_against_oig` from the source.  The Python function mutates
both DataFrame arguments in place (it assigns new columns to them) and
returns only the merged frame; the model returns the merged table together
with the two tables as the call leaves them. -/
def screen_against_oig (emp oig : Table) : Except String (Table × Table × Table) :=
  match oigPrepared oig with
  | .error e => .error e
  | .ok (o4, _sub, dd) =>
    let e2 := empWithUp emp
    .ok (mergeInner e2 dd ["EMP_LAST_UP", "EMP_FIRST_UP"] ["OIG_LAST_UP", "OIG_FIRST_UP"],
      e2, o4)

/-- Python `str.strip` on a column label. -/
def pyStripStr (s : String) : String := ⟨pyStrip s.data⟩

/-- Lines 69-92 of the source (`load_employee_list` after the existence
check): reconcile the two raw roster shapes, keep only the `ID` and
`EMPLOYEE` columns, and derive `LAST_NAME` / `FIRST_NAME` with
`parse_last` / `parse_first`.  A missing `ID`/`EMPLOYEE` column models the
pandas `KeyError`; a NaN `EMPLOYEE` cell models the `apply` crash on a
non-string. -/
def load_employee_shape (t : Table) : Except String Table :=
  let t1 :=
    if "Unnamed: 2" ∈ t.cols ∧ "Unnamed: 1" ∈ t.cols then
      let f : Table :=
        { cols := t.cols,
          rows := (t.rows.filter (fun r => (getCellR r "Unnamed: 2").isSome)).drop 1 }
      renameMap
        (fun c => if c = "Unnamed: 1" then "ID"
          else if c = "Unnamed: 2" then "EMPLOYEE" else c) f
    else renameMap pyStripStr t
  if "ID" ∈ t1.cols ∧ "EMPLOYEE" ∈ t1.cols then
    if (selectCols ["ID", "EMPLOYEE"] t1).rows.all
        (fun r => (getCellR r "EMPLOYEE").isSome) then
      .ok (setColF
        (setColF (selectCols ["ID", "EMPLOYEE"] t1) "LAST_NAME"
          (fun r => (getCellR r "EMPLOYEE").map parse_last))
        "FIRST_NAME" (fun r => (getCellR r "EMPLOYEE").map parse_first))
    else .error "TypeError: EMPLOYEE cell is not a string"
  else .error "KeyError: ID / EMPLOYEE"

/-- Modelled from the spec's words for the Roster Loader (section 4.3):
when both placeholder columns are present, drop the rows missing a value
in the full-name placeholder, drop the first remaining row, and rename the
placeholders to their semantic names; otherwise only trim the column
names.  Then the result retains exactly the ID and full-name columns plus
`LAST_NAME` / `FIRST_NAME` derived from the full name via the Name
Normalizer. -/
def load_shape_spec (t : Table) : Except String Table :=
  let t1 :=
    if "Unnamed: 2" ∈ t.cols ∧ "Unnamed: 1" ∈ t.cols then
      let kept := t.rows.filter (fun r => (getCellR r "Unnamed: 2").isSome)
      let dropped := kept.drop 1
      renameMap
        (fun c => if c = "Unnamed: 1" then "ID"
          else if c = "Unnamed: 2" then "EMPLOYEE" else c)
        { cols := t.cols, rows := dropped }
    else renameMap pyStripStr t
  if "ID" ∈ t1.cols ∧ "EMPLOYEE" ∈ t1.cols then
    if t1.rows.all (fun r => (getCellR (["ID", "EMPLOYEE"].map
        (fun c => (c, getCellR r c))) "EMPLOYEE").isSome) then
      .ok { cols := ["ID", "EMPLOYEE", "LAST_NAME", "FIRST_NAME"],
            rows := t1.rows.map (fun r =>
              let e := getCellR r "EMPLOYEE"
              [("ID", getCellR r "ID"), ("EMPLOYEE", e),
                ("LAST_NAME", e.map parse_last), ("FIRST_NAME", e.map parse_first)]) }
    else .error "TypeError: EMPLOYEE cell is not a string"
  else .error "KeyError: ID / EMPLOYEE"

/-- A line of the rendered PDF, by kind: a title-block line, the single
column-header line, the fixed no-matches notice, or one data row carrying
the four reported fields. -/
inductive RLine where
  | title (s : String)
  | header
  | notice
  | data (id name start stop : Cell)

deriving DecidableEq

/-- The data line written for one merged row: `row["ID"]`,
`row["EMPLOYEE"]`, `row.get("OIG_START_DATE", "")`,
`row.get("OIG_END_DATE", "")`. -/
def dataLineOf (r : TRow) : RLine :=
  .data (getCellR r "ID") (getCellR r "EMPLOYEE")
    (getCellR r "OIG_START_DATE") (getCellR r "OIG_END_DATE")

/-- The row loop of `make_pdf_report`: write each data row onto the
current page and start a fresh page whenever the running count reaches 45
(`lines_per_page`); the final `drawText` emits the last page. -/
def renderLoop : List TRow → List RLine → Nat → List (List RLine)
  | [], cur, _ => [cur]
  | r :: rs, cur, count =>
    if count + 1 ≥ 45 then (cur ++ [dataLineOf r]) :: renderLoop rs [] 0
    else renderLoop rs (cur ++ [dataLineOf r]) (count + 1)

/-- The three title-block lines of the report. -/
def titleLines (today : String) : List RLine :=
  [.title "H&S Pharmacies LLC", .title "OIG Exclusion Screening Report",
    .title ("Date: " ++ today)]

/-- `make_pdf_report` from the source, abstracted to the page/line
structure it draws: an empty merge yields one page with the fixed notice;
otherwise page one holds the title block, the single header line and data
rows, with a page break after every 45 data rows. -/

def make_pdf_pages (today : String) (merged : Table) : List (List RLine) :=
  if merged.rows.isEmpty then [titleLines today ++ [.notice]]
  else renderLoop merged.rows (titleLines today ++ [.header]) 0

/-- How many data rows a page carries. -/
def dataCount (p : List RLine) : Nat :=
  p.countP (fun l => match l with | .data _ _ _ _ => true | _ => false)

/-- How many header lines a page carries. -/
def headerCount (p : List RLine) : Nat :=
  p.countP (fun l => match l with | .header => true | _ => false)

/-- The 100-row merged table used as the spec's pagination example. -/
def m100 : Table :=
  { cols := ["ID", "EMPLOYEE"],
    rows := List.replicate 100
      [("ID", some (pstr "1")), ("EMPLOYEE", some (pstr "DOE, JANE"))] }

/-- The externally visible steps of one run of `main()`, in order. -/
inductive MainEv where
  | promptPath
  | makeReportsDir
  | fetchExclusions
  | printStderrError
  | exitProc (code : Nat)
  | parseRoster
  | screenRun
  | writeReport

deriving DecidableEq

/-- The step sequence of `load_employee_list`: the existence check comes
first; on a missing file it prints to stderr and exits with code 1,
otherwise it parses the roster. -/
def load_employee_events (rosterExists : Bool) : List MainEv :=
  if rosterExists then [.parseRoster]
  else [.printStderrError, .exitProc 1]

/-- The step sequence of `main()` as the source orders it: resolve the
roster path (prompting if needed), create the reports directory, download
the exclusion CSV, then load the roster (which performs the existence
check), screen and write the report. -/
def main_events (rosterExists : Bool) : List MainEv :=
  [.promptPath, .makeReportsDir, .fetchExclusions]
    ++ load_employee_events rosterExists
    ++ (if rosterExists then [.screenRun, .writeReport] else [])

/-- Table `t'` extends table `t` without altering it: the original
columns are an initial segment of the new columns and every original row
is an initial segment of the corresponding new row (so every pre-existing
cell is untouched). -/
def Extends (t t' : Table) : Prop :=
  t.cols <+: t'.cols ∧ List.Forall₂ (fun r r' => r <+: r') t.rows t'.rows

/-- The columns written into the exclusion table, lines 119-127. -/
def oigMutated (oig : Table) (fc lc : String) (sc ec : Option String) : Table :=
  let o1 := setColF oig "OIG_FIRST_UP" (fun r => some (normField (getCellR r fc)))
  let o2 := setColF o1 "OIG_LAST_UP" (fun r => some (normField (getCellR r lc)))
  let o3 := match sc with
    | some c => setColF o2 "OIG_START_DATE" (fun r => getCellR r c)
    | none => o2
  match ec with
  | some c => setColF o3 "OIG_END_DATE" (fun r => getCellR r c)
  | none => o3

/-- A loader-shaped roster table with one employee, `DOE, JANE`. -/
def empT : Table :=
  { cols := ["ID", "EMPLOYEE", "LAST_NAME", "FIRST_NAME"],
    rows := [[("ID", some (pstr "1")), ("EMPLOYEE", some (pstr "DOE, JANE")),
      ("LAST_NAME", some (pstr "DOE")), ("FIRST_NAME", some (pstr "JANE"))]] }

/-- An exclusion table with one row for `DOE, JANE` and a single
date-named column. -/
def oigT : Table :=
  { cols := ["LASTNAME", "FIRSTNAME", "DATE"],
    rows := [[("LASTNAME", some (pstr "DOE")), ("FIRSTNAME", some (pstr "JANE")),
      ("DATE", some (pstr "01/01/2024"))]] }

/-- The first invocation of the engine on `empT`/`oigT`. -/
def run1 : Except String (Table × Table × Table) := screen_against_oig empT oigT

/-- A second invocation on the same tables, i.e. on the tables exactly as
the first call leaves them (the Python call mutates its arguments in
place). -/
def run2 : Except String (Table × Table × Table) :=
  run1.bind (fun r => screen_against_oig r.2.1 r.2.2)

/-- The merged table of the first run (dummy table on error). -/
def scr1m : Table := match run1 with | .ok r => r.1 | .error _ => ⟨[], []⟩

/-- The roster table as left by the first run. -/
def scr1e : Table := match run1 with | .ok r => r.2.1 | .error _ => ⟨[], []⟩

/-- The exclusion table as left by the first run. -/
def scr1o : Table := match run1 with | .ok r => r.2.2 | .error _ => ⟨[], []⟩

/-- The prepared exclusion-side tables for `oigT`. -/
def prep1 : Except String (Table × Table × Table) := oigPrepared oigT

/-- The pre-dedup subset table for `oigT`. -/
def prep1sub : Table := match prep1 with | .ok r => r.2.1 | .error _ => ⟨[], []⟩

/-- The deduplicated subset table for `oigT`. -/
def prep1dd : Table := match prep1 with | .ok r => r.2.2 | .error _ => ⟨[], []⟩

/-- An exclusion table with two rows sharing the normalized key
(`DOE`, `JANE`) but different dates, plus a third row with another key. -/
def oigT2 : Table :=
  { cols := ["LASTNAME", "FIRSTNAME", "EXCLUSION START DATE", "REINSTATEMENT DATE"],
    rows := [
      [("LASTNAME", some (pstr "DOE")), ("FIRSTNAME", some (pstr "JANE")),
        ("EXCLUSION START DATE", some (pstr "01/01/2020")),
        ("REINSTATEMENT DATE", some (pstr "02/02/2020"))],
      [("LASTNAME", some (pstr "doe ")), ("FIRSTNAME", some (pstr " jane")),
        ("EXCLUSION START DATE", some (pstr "03/03/2021")),
        ("REINSTATEMENT DATE", some (pstr "04/04/2021"))],
      [("LASTNAME", some (pstr "ROE")), ("FIRSTNAME", some (pstr "RICK")),
        ("EXCLUSION START DATE", some (pstr "05/05/2022")),
        ("REINSTATEMENT DATE", none)]] }

/-- The prepared exclusion-side tables for `oigT2`. -/
def prep2 : Except String (Table × Table × Table) := oigPrepared oigT2

/-- The mutated exclusion table for `oigT2`. -/
def prep2o : Table := match prep2 with | .ok r => r.1 | .error _ => ⟨[], []⟩

/-- The pre-dedup subset table for `oigT2`. -/
def prep2sub : Table := match prep2 with | .ok r => r.2.1 | .error _ => ⟨[], []⟩

/-- The deduplicated subset table for `oigT2`. -/
def prep2dd : Table := match prep2 with | .ok r => r.2.2 | .error _ => ⟨[], []⟩

/-- The normalized key shared by the first two rows of `oigT2`. -/
def kJane : List Cell := [some (pstr "DOE"), some (pstr "JANE")]

/-- A loader-shaped roster table holding a single employee with the given
id and raw full name. -/
def empT1 (id name : PyStr) : Table :=
  { cols := ["ID", "EMPLOYEE", "LAST_NAME", "FIRST_NAME"],
    rows := [[("ID", some id), ("EMPLOYEE", some name),
      ("LAST_NAME", some (parse_last name)), ("FIRST_NAME", some (parse_first name))]] }

/-- An exclusion table whose rows are the given (last, first) cell pairs. -/
def oigT1 (xs : List (Cell × Cell)) : Table :=
  { cols := ["LASTNAME", "FIRSTNAME"],
    rows := xs.map (fun p => [("LASTNAME", p.1), ("FIRSTNAME", p.2)]) }

/-- The merged rows of an engine result (empty on error). -/
def mergedRowsOf (r : Except String (Table × Table × Table)) : List TRow :=
  match r with
  | .ok t => t.1.rows
  | .error _ => []

/-- The mutated exclusion table for `oigT1 xs`. -/
def oigT1m (xs : List (Cell × Cell)) : Table :=
  oigMutated (oigT1 xs) "FIRSTNAME" "LASTNAME" none none

/-- The pre-dedup subset table for `oigT1 xs`. -/
def oigT1sub (xs : List (Cell × Cell)) : Table :=
  selectCols (subsetCols none none) (oigT1m xs)

/-- The deduplicated subset table for `oigT1 xs`. -/
def oigT1dd (xs : List (Cell × Cell)) : Table :=
  { cols := (oigT1sub xs).cols, rows := dedupBy oigKeyOf (oigT1sub xs).rows [] }

/-- The single roster row of `empT1 id name` after the engine writes its
key columns. -/
def empRow1 (id name : PyStr) : TRow :=
  [("ID", some id), ("EMPLOYEE", some name),
    ("LAST_NAME", some (parse_last name)), ("FIRST_NAME", some (parse_first name)),
    ("EMP_LAST_UP", some (pyStrip (pyUpperS (parse_last name)))),
    ("EMP_FIRST_UP", some (pyStrip (pyUpperS (parse_first name))))]

theorem splitComma_fst (s : PyStr) :
    (splitComma s).1 = s.takeWhile (fun c => !(c == ',')) := by
  induction s with
  | nil => rfl
  | cons c cs ih =>
    by_cases h : c = ','
    · subst h; simp [splitComma, List.takeWhile]
    · have hb : (c == ',') = false := by simp [h]
      simp [splitComma, List.takeWhile, hb, ih]

theorem splitComma_snd (s : PyStr) :
    (splitComma s).2 =
      if s.any (fun c => c == ',') then
        some ((s.dropWhile (fun c => !(c == ','))).tail)
      else none := by
  induction s with
  | nil => rfl
  | cons c cs ih =>
    by_cases h : c = ','
    · subst h; simp [splitComma, List.dropWhile]
    · have hb : (c == ',') = false := by simp [h]
      simp [splitComma, List.dropWhile, hb, ih, h]

/-- C4: the Name Normalizer splits on the first comma only; the part
before the comma, trimmed and upper-cased, is the last name; with no
comma the first name is empty and the last name is the whole trimmed,
upper-cased string; otherwise the first name is the first
whitespace-delimited token after the comma (later tokens discarded).
The code's `parse_last`/`parse_first` agree with the spec's description on
every input, and the spec's three edge-case examples hold. -/
theorem normalizer_matches_spec :
    (∀ s : PyStr, (parse_last s, parse_first s) = normalizeRosterName_spec s)
    ∧ (parse_last (pstr "SMITH, JOHN Q"), parse_first (pstr "SMITH, JOHN Q"))
        = (pstr "SMITH", pstr "JOHN")
    ∧ (parse_last (pstr "SMITH"), parse_first (pstr "SMITH")) = (pstr "SMITH", pstr "")
    ∧ (parse_last (pstr "smith,  john"), parse_first (pstr "smith,  john"))
        = (pstr "SMITH", pstr "JOHN") := by
  refine ⟨fun s => ?_, by decide, by decide, by decide⟩
  unfold parse_last parse_first normalizeRosterName_spec
  rw [splitComma_fst, splitComma_snd]
  by_cases h : s.any (fun c => c == ',')
  · simp only [h, if_true]
  · have ht : s.takeWhile (fun c => !(c == ',')) = s := by
      refine List.takeWhile_eq_self_iff.mpr ?_
      intro a ha
      simp only [Bool.not_eq_true'] at *
      by_contra hc
      simp only [Bool.not_eq_false] at hc
      exact h (List.any_eq_true.mpr ⟨a, ha, hc⟩)
    simp only [h, if_false, ht]
    rfl

theorem head?_filter_eq_find? (p : α → Bool) (l : List α) :
    (l.filter p).head? = l.find? p := by
  induction l with
  | nil => rfl
  | cons a t ih =>
    by_cases h : p a
    · simp [List.filter, List.find?, h]
    · simp only [Bool.not_eq_true] at h
      simp [List.filter, List.find?, h, ih]

theorem find?_filter_comm (p q : α → Bool) (l : List α) :
    (l.filter p).find? q = l.find? (fun a => p a && q a) := by
  induction l with
  | nil => rfl
  | cons a t ih =>
    by_cases h : p a
    · by_cases h2 : q a
      · simp [List.filter, List.find?, h, h2]
      · simp only [Bool.not_eq_true] at h2
        simp [List.filter, List.find?, h, h2, ih]
    · simp only [Bool.not_eq_true] at h
      simp [List.filter, List.find?, h, ih]

theorem filter_eq_nil_iff_find? (p : α → Bool) (l : List α) :
    l.filter p = [] ↔ l.find? p = none := by
  rw [← head?_filter_eq_find?]
  cases l.filter p <;> simp

/-- C3: the Column Resolver picks the first `FIRST`-containing and first
`LAST`-containing columns (SchemaError when absent), resolves the start
date column as the first `DATE` column also containing `START`/`EFFECT`
with fallback to the first `DATE` column, and the end date column as the
first `DATE` column also containing `END`/`REINSTATEMENT` with fallback to
the second `DATE` column; missing date columns do not fail resolution.
`find_name_columns` agrees with this description on every column list, and
the spec's concrete four-column example resolves to exactly those four
columns in role order. -/
theorem resolver_matches_spec :
    (∀ cols : List String, find_name_columns cols = resolveColumns_spec cols)
    ∧ find_name_columns
        ["LASTNAME", "FIRSTNAME", "EXCLUSION START DATE", "REINSTATEMENT DATE"]
      = .ok ("FIRSTNAME", "LASTNAME",
          some "EXCLUSION START DATE", some "REINSTATEMENT DATE") := by
  refine ⟨fun cols => ?_, by decide⟩
  unfold find_name_columns resolveColumns_spec
  rcases hf : cols.filter (fun c => strContains c "FIRST") with _ | ⟨fc, ft⟩
  · rw [(filter_eq_nil_iff_find? _ _).mp hf]
  · have hffind : cols.find? (fun c => strContains c "FIRST") = some fc := by
      rw [← head?_filter_eq_find?, hf]; rfl
    rw [hffind]
    rcases hl : cols.filter (fun c => strContains c "LAST") with _ | ⟨lc, lt⟩
    · rw [(filter_eq_nil_iff_find? _ _).mp hl]
    · have hlfind : cols.find? (fun c => strContains c "LAST") = some lc := by
        rw [← head?_filter_eq_find?, hl]; rfl
      rw [hlfind]
      simp only [find?_filter_comm, head?_filter_eq_find?]

theorem dedupBy_countP {α β : Type} [DecidableEq β] (key : α → β) (k : β) :
    ∀ (l : List α) (seen : List β),
      (dedupBy key l seen).countP (fun x => decide (key x = k))
        = if k ∈ seen then 0 else if k ∈ l.map key then 1 else 0 := by
  intro l
  induction l with
  | nil => intro seen; simp [dedupBy]
  | cons x xs ih =>
    intro seen
    by_cases hx : key x ∈ seen
    · rw [dedupBy, if_pos hx, ih]
      by_cases hk : k ∈ seen
      · simp [hk]
      · have hne : ¬ k = key x := fun he => hk (he ▸ hx)
        simp [hk, hne]
    · rw [dedupBy, if_neg hx, List.countP_cons, ih]
      by_cases hxk : key x = k
      · have h1 : k ∈ key x :: seen := by rw [hxk]; exact List.mem_cons_self _ _
        have h2 : ¬ k ∈ seen := fun hk => hx (hxk ▸ hk)
        simp [h1, h2, hxk]
      · have hne : ¬ k = key x := fun he => hxk he.symm
        have h1 : (k ∈ key x :: seen) ↔ k ∈ seen := by simp [List.mem_cons, hne]
        by_cases hk : k ∈ seen
        · simp [h1, hk, hxk]
        · simp [h1, hk, hxk, hne]

theorem dedupBy_find? {α β : Type} [DecidableEq β] (key : α → β) (k : β) :
    ∀ (l : List α) (seen : List β), k ∉ seen →
      (dedupBy key l seen).find? (fun x => decide (key x = k))
        = l.find? (fun x => decide (key x = k)) := by
  intro l
  induction l with
  | nil => intro seen _; simp [dedupBy]
  | cons x xs ih =>
    intro seen hk
    by_cases hx : key x ∈ seen
    · have hne' : ¬ (decide (key x = k)) = true := by
        simp only [decide_eq_true_eq]
        exact fun he => hk (he ▸ hx)
      rw [dedupBy, if_pos hx,
        @List.find?_cons_of_neg _ (fun y => decide (key y = k)) x xs hne', ih seen hk]
    · by_cases hxk : key x = k
      · have hp' : (decide (key x = k)) = true := decide_eq_true hxk
        rw [dedupBy, if_neg hx,
          @List.find?_cons_of_pos _ (fun y => decide (key y = k)) x
            (dedupBy key xs (key x :: seen)) hp',
          @List.find?_cons_of_pos _ (fun y => decide (key y = k)) x xs hp']
      · have hk2 : k ∉ key x :: seen := by
          intro hmem
          rcases List.mem_cons.mp hmem with h | h
          · exact hxk h.symm
          · exact hk h
        have hne' : ¬ (decide (key x = k)) = true := by simp [hxk]
        rw [dedupBy, if_neg hx,
          @List.find?_cons_of_neg _ (fun y => decide (key y = k)) x
            (dedupBy key xs (key x :: seen)) hne',
          @List.find?_cons_of_neg _ (fun y => decide (key y = k)) x xs hne', ih _ hk2]

theorem dedupBy_nodup {α β : Type} [DecidableEq β] (key : α → β) :
    ∀ (l : List α) (seen : List β),
      ((dedupBy key l seen).map key).Nodup
      ∧ ∀ b ∈ (dedupBy key l seen).map key, b ∉ seen := by
  intro l
  induction l with
  | nil => intro seen; simp [dedupBy]
  | cons x xs ih =>
    intro seen
    by_cases hx : key x ∈ seen
    · rw [dedupBy, if_pos hx]; exact ih seen
    · rw [dedupBy, if_neg hx]
      obtain ⟨hnd, hout⟩ := ih (key x :: seen)
      refine ⟨?_, ?_⟩
      · rw [List.map_cons, List.nodup_cons]
        exact ⟨fun hmem => hout _ hmem (List.mem_cons_self _ _), hnd⟩
      · intro b hb
        rw [List.map_cons] at hb
        rcases List.mem_cons.mp hb with h | h
        · exact fun hs => hx (h ▸ hs)
        · exact fun hs => hout b h (List.mem_cons_of_mem _ hs)

theorem filter_key_unique {α β : Type} [DecidableEq β] (key : α → β)
    (l : List α) (h : (l.map key).Nodup) (p : α → Bool) (k : β)
    (hp : ∀ x, p x = decide (key x = k)) :
    l.filter p = (l.find? p).toList := by
  induction l with
  | nil => rfl
  | cons x xs ih =>
    rw [List.map_cons, List.nodup_cons] at h
    by_cases hx : p x
    · have hxk : key x = k := of_decide_eq_true (hp x ▸ hx)
      have hnil : xs.filter p = [] := by
        rw [List.filter_eq_nil_iff]
        intro a ha hpa
        have hak : key a = k := of_decide_eq_true (hp a ▸ hpa)
        refine h.1 ?_
        rw [hxk.trans hak.symm]
        exact List.mem_map_of_mem key ha
      rw [List.filter_cons_of_pos hx, @List.find?_cons_of_pos _ p x xs hx, hnil]
      rfl
    · simp only [Bool.not_eq_true] at hx
      rw [List.filter_cons_of_neg (by simp [hx]),
        @List.find?_cons_of_neg _ p x xs (by simp [hx])]
      exact ih h.2

theorem oigPrepared_dd (oig o' sub dd : Table)
    (h : oigPrepared oig = .ok (o', sub, dd)) :
    dd.rows = dedupBy oigKeyOf sub.rows [] := by
  unfold oigPrepared at h
  rcases hf : find_name_columns oig.cols with e | ⟨fc, lc, sc, ec⟩ <;> rw [hf] at h
  · exact absurd h (by simp)
  · simp only [Except.ok.injEq, Prod.mk.injEq] at h
    obtain ⟨_, h2, h3⟩ := h
    rw [← h3, ← h2]

theorem screen_ok_elim (emp oig m e' o' : Table)
    (h : screen_against_oig emp oig = .ok (m, e', o')) :
    ∃ sub dd, oigPrepared oig = .ok (o', sub, dd)
      ∧ e' = empWithUp emp
      ∧ m = mergeInner (empWithUp emp) dd
          ["EMP_LAST_UP", "EMP_FIRST_UP"] ["OIG_LAST_UP", "OIG_FIRST_UP"] := by
  unfold screen_against_oig at h
  rcases hp : oigPrepared oig with e | ⟨o4, sub, dd⟩ <;> rw [hp] at h
  · exact absurd h (by simp)
  · simp only [Except.ok.injEq, Prod.mk.injEq] at h
    obtain ⟨h1, h2, h3⟩ := h
    exact ⟨sub, dd, by rw [← h3], h2.symm, h1.symm⟩

/-- C2: after deduplication exactly one exclusion entry survives per
normalized (last, first) key present in the pre-dedup subset (and none for
an absent key), and for every key the surviving row — dates included — is
the first-encountered row of the subset in source order. -/
theorem dedup_first_wins (oig o' sub dd : Table) (k : List Cell)
    (h : oigPrepared oig = .ok (o', sub, dd)) :
    (dd.rows.countP (fun r => decide (oigKeyOf r = k))
        = if k ∈ sub.rows.map oigKeyOf then 1 else 0)
    ∧ dd.rows.find? (fun r => decide (oigKeyOf r = k))
        = sub.rows.find? (fun r => decide (oigKeyOf r = k)) := by
  rw [oigPrepared_dd oig o' sub dd h]
  constructor
  · rw [dedupBy_countP oigKeyOf k sub.rows []]
    simp
  · exact dedupBy_find? oigKeyOf k sub.rows [] (List.not_mem_nil k)

/-- C1: the Matching Engine's output is exactly the inner equality join on
the normalized (last, first) key: scanning the roster rows in roster
order, each roster row whose key equals the key of some deduplicated
exclusion row contributes exactly one output row — the roster row extended
with that exclusion row, dates included — and a roster row with no
counterpart contributes nothing. -/
theorem screen_is_inner_join (emp oig m e' o' sub dd : Table)
    (h : screen_against_oig emp oig = .ok (m, e', o'))
    (hp : oigPrepared oig = .ok (o', sub, dd)) :
    m.rows = e'.rows.flatMap (fun er =>
      ((dd.rows.find? (fun orr => decide (empKeyOf er = oigKeyOf orr))).map
        (fun orr => er ++ orr)).toList) := by
  obtain ⟨sub₀, dd₀, hp₀, he, hm⟩ := screen_ok_elim emp oig m e' o' h
  rw [hp] at hp₀
  simp only [Except.ok.injEq, Prod.mk.injEq] at hp₀
  obtain ⟨-, hsub, hdd⟩ := hp₀
  subst hsub hdd he hm
  have hnd : (dd.rows.map oigKeyOf).Nodup := by
    rw [oigPrepared_dd oig o' sub dd hp]
    exact (dedupBy_nodup oigKeyOf sub.rows []).1
  dsimp only [mergeInner]
  refine congrArg _ (funext fun er => ?_)
  have hfix : ∀ rr : TRow,
      (decide (["EMP_LAST_UP", "EMP_FIRST_UP"].map (getCellR er)
          = ["OIG_LAST_UP", "OIG_FIRST_UP"].map (getCellR rr)))
        = decide (oigKeyOf rr = empKeyOf er) := by
    intro rr
    exact decide_eq_decide.mpr ⟨Eq.symm, Eq.symm⟩
  rw [List.filter_congr (fun rr _ => hfix rr)]
  rw [filter_key_unique oigKeyOf dd.rows hnd _ (empKeyOf er) (fun rr => rfl)]
  have hfix2 : (dd.rows.find? fun rr => decide (oigKeyOf rr = empKeyOf er))
      = dd.rows.find? (fun orr => decide (empKeyOf er = oigKeyOf orr)) := by
    have hpq : (fun rr => decide (oigKeyOf rr = empKeyOf er))
        = (fun orr => decide (empKeyOf er = oigKeyOf orr)) :=
      funext fun rr => decide_eq_decide.mpr ⟨Eq.symm, Eq.symm⟩
    rw [hpq]
  rw [hfix2]
  cases dd.rows.find? (fun orr => decide (empKeyOf er = oigKeyOf orr)) <;> rfl

theorem getCellR_select_employee (r : TRow) :
    getCellR (["ID", "EMPLOYEE"].map (fun c => (c, getCellR r c))) "EMPLOYEE"
      = getCellR r "EMPLOYEE" := by
  rfl

theorem setColF_fresh (t : Table) (c : String) (f : TRow → Cell) (h : c ∉ t.cols) :
    setColF t c f
      = { cols := t.cols ++ [c], rows := t.rows.map (fun r => r ++ [(c, f r)]) } := by
  unfold setColF
  rw [if_neg (by simpa using h)]

/-- C8: the Roster Loader handles the two raw shapes exactly as the spec
describes — with both placeholder columns present it drops the rows with a
missing full-name placeholder value, drops the first remaining row and
renames the placeholders; otherwise it only trims column names — and in
both cases the result holds exactly the ID and full-name columns plus
`LAST_NAME` / `FIRST_NAME` derived through the Name Normalizer.  The
code's transform equals the spec's description on every raw table. -/
theorem loader_matches_spec (t : Table) :
    load_employee_shape t = load_shape_spec t := by
  unfold load_employee_shape load_shape_spec
  rcases em :
    (if "Unnamed: 2" ∈ t.cols ∧ "Unnamed: 1" ∈ t.cols then
      renameMap
        (fun c => if c = "Unnamed: 1" then "ID"
          else if c = "Unnamed: 2" then "EMPLOYEE" else c)
        { cols := t.cols,
          rows := (t.rows.filter (fun r => (getCellR r "Unnamed: 2").isSome)).drop 1 }
    else renameMap pyStripStr t) with t1
  by_cases hcols : "ID" ∈ t1.cols ∧ "EMPLOYEE" ∈ t1.cols
  · rw [if_pos hcols, if_pos hcols]
    have hall : (selectCols ["ID", "EMPLOYEE"] t1).rows.all
          (fun r => (getCellR r "EMPLOYEE").isSome)
        = t1.rows.all (fun r => (getCellR (["ID", "EMPLOYEE"].map
            (fun c => (c, getCellR r c))) "EMPLOYEE").isSome) := by
      unfold selectCols
      rw [List.all_map]
      rfl
    rw [hall]
    by_cases hsome : t1.rows.all (fun r => (getCellR (["ID", "EMPLOYEE"].map
        (fun c => (c, getCellR r c))) "EMPLOYEE").isSome)
    · rw [if_pos hsome, if_pos hsome]
      refine congrArg Except.ok ?_
      have hin : setColF (selectCols ["ID", "EMPLOYEE"] t1) "LAST_NAME"
          (fun r => (getCellR r "EMPLOYEE").map parse_last)
          = { cols := ["ID", "EMPLOYEE", "LAST_NAME"],
              rows := (selectCols ["ID", "EMPLOYEE"] t1).rows.map
                (fun r => r ++ [("LAST_NAME", (getCellR r "EMPLOYEE").map parse_last)]) } := by
        rw [setColF_fresh _ _ _ (by simp [selectCols])]
        rfl
      rw [hin, setColF_fresh _ _ _ (by simp)]
      rw [Table.mk.injEq]
      refine ⟨rfl, ?_⟩
      show ((t1.rows.map _).map _).map _ = _
      rw [List.map_map, List.map_map]
      refine List.map_congr_left ?_
      intro r _
      rfl
    · rw [if_neg hsome, if_neg hsome]
  · rw [if_neg hcols, if_neg hcols]

theorem renderLoop_ne_nil (rs : List TRow) (cur : List RLine) (count : Nat) :
    renderLoop rs cur count ≠ [] := by
  cases rs with
  | nil => simp [renderLoop]
  | cons r rs' =>
    rw [renderLoop]
    by_cases h : count + 1 ≥ 45
    · simp [h]
    · simp only [if_neg h]
      exact renderLoop_ne_nil rs' _ _

theorem headerCount_append (p q : List RLine) :
    headerCount (p ++ q) = headerCount p + headerCount q :=
  List.countP_append _ _ _

theorem dataCount_append (p q : List RLine) :
    dataCount (p ++ q) = dataCount p + dataCount q :=
  List.countP_append _ _ _

theorem all_of_head_tail {f : List RLine → Nat} {l : List (List RLine)}
    (hh : l.head?.map f = some 0) (ht : ∀ p ∈ l.tail, f p = 0) :
    ∀ p ∈ l, f p = 0 := by
  intro p hp
  cases l with
  | nil => cases hp
  | cons a t =>
    rcases List.mem_cons.mp hp with h | h
    · subst h; simpa using hh
    · exact ht p h

theorem renderLoop_headerCount (rs : List TRow) :
    ∀ (cur : List RLine) (count : Nat),
      (renderLoop rs cur count).head?.map headerCount = some (headerCount cur)
      ∧ ∀ p ∈ (renderLoop rs cur count).tail, headerCount p = 0 := by
  induction rs with
  | nil => intro cur count; simp [renderLoop]
  | cons r rs' ih =>
    intro cur count
    rw [renderLoop]
    by_cases h : count + 1 ≥ 45
    · rw [if_pos h]
      obtain ⟨hhead, htail⟩ := ih [] 0
      constructor
      · simp [headerCount_append, headerCount, dataLineOf]
      · intro p hp
        simp only [List.tail_cons] at hp
        refine all_of_head_tail ?_ htail p hp
        rw [hhead]
        rfl
    · rw [if_neg h]
      obtain ⟨hhead, htail⟩ := ih (cur ++ [dataLineOf r]) (count + 1)
      constructor
      · rw [hhead]
        simp [headerCount_append, headerCount, dataLineOf]
      · exact htail

theorem renderLoop_dataCount (rs : List TRow) :
    ∀ (cur : List RLine) (count : Nat), count < 45 → dataCount cur = count →
      (∀ p ∈ (renderLoop rs cur count).dropLast, dataCount p = 45)
      ∧ (∀ p, (renderLoop rs cur count).getLast? = some p → dataCount p < 45) := by
  induction rs with
  | nil =>
    intro cur count hlt hc
    refine ⟨by simp [renderLoop], ?_⟩
    intro p hp
    simp only [renderLoop, List.getLast?_singleton, Option.some.injEq] at hp
    rw [← hp, hc]
    exact hlt
  | cons r rs' ih =>
    intro cur count hlt hc
    rw [renderLoop]
    by_cases h : count + 1 ≥ 45
    · rw [if_pos h]
      have hcount : count = 44 := by omega
      have hfull : dataCount (cur ++ [dataLineOf r]) = 45 := by
        rw [dataCount_append, hc, hcount]
        rfl
      obtain ⟨hdrop, hlast⟩ := ih [] 0 (by omega) rfl
      rcases hl : renderLoop rs' [] 0 with _ | ⟨p0, pt⟩
      · exact absurd hl (renderLoop_ne_nil rs' [] 0)
      · rw [hl] at hdrop hlast
        constructor
        · intro p hp
          rw [List.dropLast_cons₂] at hp
          rcases List.mem_cons.mp hp with h1 | h1
          · rw [h1]; exact hfull
          · exact hdrop p h1
        · intro p hp
          rw [List.getLast?_cons_cons] at hp
          exact hlast p hp
    · rw [if_neg h]
      exact ih (cur ++ [dataLineOf r]) (count + 1) (by omega)
        (by rw [dataCount_append, hc]; rfl)

/-- C9: on a non-empty match set the renderer emits the column header
exactly once, on the first page only, and starts a new page after every 45
data rows: every non-final page carries exactly 45 data rows and the final
page fewer than 45.  In particular 100 matched rows render across exactly
3 pages carrying 45, 45 and 10 data rows, with the header only on the
first. -/
theorem render_paginates (today : String) (m : Table) (hne : ¬ m.rows = []) :
    ((make_pdf_pages today m).head?.map headerCount = some 1)
    ∧ (∀ p ∈ (make_pdf_pages today m).tail, headerCount p = 0)
    ∧ (∀ p ∈ (make_pdf_pages today m).dropLast, dataCount p = 45)
    ∧ (∀ p, (make_pdf_pages today m).getLast? = some p → dataCount p < 45)
    ∧ (make_pdf_pages "April 05, 2025" m100).map dataCount = [45, 45, 10]
    ∧ (make_pdf_pages "April 05, 2025" m100).map headerCount = [1, 0, 0]
    ∧ (make_pdf_pages "April 05, 2025" m100).length = 3 := by
  have hemp : m.rows.isEmpty = false := by
    cases hr : m.rows with
    | nil => exact absurd hr hne
    | cons a t => rfl
  have hpages : make_pdf_pages today m
      = renderLoop m.rows (titleLines today ++ [RLine.header]) 0 := by
    unfold make_pdf_pages
    rw [hemp]
    rfl
  obtain ⟨hh, ht⟩ := renderLoop_headerCount m.rows (titleLines today ++ [RLine.header]) 0
  obtain ⟨hd, hl⟩ := renderLoop_dataCount m.rows (titleLines today ++ [RLine.header]) 0
    (by omega) (by rfl)
  rw [hpages]
  exact ⟨by rw [hh]; rfl, ht, hd, hl, by decide, by decide, by decide⟩

/-- C5 counterexample: in a run whose roster path does not resolve to an
existing file, the exclusion source HAS already been fetched (and the
reports directory created) before the stderr report and the exit with
code 1 — `main()` downloads the OIG CSV before `load_employee_list` runs
its existence check — contradicting the claim that the process exits
before any other work, in particular before the fetch. -/
theorem missing_roster_fetches_first :
    MainEv.fetchExclusions ∈ main_events false
    ∧ MainEv.makeReportsDir ∈ main_events false
    ∧ (main_events false).indexOf MainEv.fetchExclusions
        < (main_events false).indexOf (MainEv.exitProc 1) := by
  decide

/-- C5 (amended): when the roster path does not resolve to an existing
file, the run reports the error on stderr and exits with failure code 1
before the roster is parsed, before any screening and before any report
output — though after the reports directory is created and the exclusion
source fetched. -/
theorem missing_roster_exits_before_parse :
    main_events false
      = [MainEv.promptPath, MainEv.makeReportsDir, MainEv.fetchExclusions,
          MainEv.printStderrError, MainEv.exitProc 1]
    ∧ MainEv.parseRoster ∉ main_events false
    ∧ MainEv.screenRun ∉ main_events false
    ∧ MainEv.writeReport ∉ main_events false
    ∧ (main_events false).indexOf MainEv.printStderrError
        < (main_events false).indexOf (MainEv.exitProc 1) := by
  decide

theorem forall₂_prefix_trans {a b c : List TRow}
    (hab : List.Forall₂ (fun r r' => r <+: r') a b)
    (hbc : List.Forall₂ (fun r r' => r <+: r') b c) :
    List.Forall₂ (fun r r' => r <+: r') a c := by
  induction hab generalizing c with
  | nil => cases hbc; exact .nil
  | cons h t ih =>
    cases hbc with
    | cons h2 t2 => exact .cons (h.trans h2) (ih t2)

theorem extends_refl (t : Table) : Extends t t :=
  ⟨List.prefix_refl _, List.forall₂_same.mpr (fun _ _ => List.prefix_refl _)⟩

theorem extends_trans {a b c : Table} (hab : Extends a b) (hbc : Extends b c) :
    Extends a c :=
  ⟨hab.1.trans hbc.1, forall₂_prefix_trans hab.2 hbc.2⟩

theorem setColF_extends (t : Table) (c : String) (f : TRow → Cell) (h : c ∉ t.cols) :
    Extends t (setColF t c f) := by
  rw [setColF_fresh t c f h]
  refine ⟨List.prefix_append _ _, ?_⟩
  rw [List.forall₂_map_right_iff]
  exact List.forall₂_same.mpr (fun r _ => List.prefix_append _ _)

theorem setColF_fresh_cols (t : Table) (c : String) (f : TRow → Cell) (h : c ∉ t.cols) :
    (setColF t c f).cols = t.cols ++ [c] := by
  rw [setColF_fresh t c f h]

theorem notMem_append_singleton {x c : String} {l : List String}
    (h1 : x ∉ l) (h2 : ¬ x = c) : x ∉ l ++ [c] := by
  intro hmem
  rcases List.mem_append.mp hmem with h | h
  · exact h1 h
  · exact h2 (List.mem_singleton.mp h)

theorem oigMutated_extends (oig : Table) (fc lc : String) (sc ec : Option String)
    (h3 : "OIG_FIRST_UP" ∉ oig.cols) (h4 : "OIG_LAST_UP" ∉ oig.cols)
    (h5 : "OIG_START_DATE" ∉ oig.cols) (h6 : "OIG_END_DATE" ∉ oig.cols) :
    Extends oig (oigMutated oig fc lc sc ec) := by
  unfold oigMutated
  have c1 := setColF_fresh_cols oig "OIG_FIRST_UP"
    (fun r => some (normField (getCellR r fc))) h3
  have x1 := setColF_extends oig "OIG_FIRST_UP"
    (fun r => some (normField (getCellR r fc))) h3
  set o1 := setColF oig "OIG_FIRST_UP" (fun r => some (normField (getCellR r fc))) with ho1
  have m2 : "OIG_LAST_UP" ∉ o1.cols := by
    rw [c1]; exact notMem_append_singleton h4 (by decide)
  have c2 : (setColF o1 "OIG_LAST_UP"
      (fun r => some (normField (getCellR r lc)))).cols = o1.cols ++ ["OIG_LAST_UP"] :=
    setColF_fresh_cols o1 _ _ m2
  have x2 := setColF_extends o1 "OIG_LAST_UP"
    (fun r => some (normField (getCellR r lc))) m2
  set o2 := setColF o1 "OIG_LAST_UP" (fun r => some (normField (getCellR r lc))) with ho2
  have m3 : "OIG_START_DATE" ∉ o2.cols := by
    rw [c2, c1]
    exact notMem_append_singleton (notMem_append_singleton h5 (by decide)) (by decide)
  have m4base : "OIG_END_DATE" ∉ o2.cols := by
    rw [c2, c1]
    exact notMem_append_singleton (notMem_append_singleton h6 (by decide)) (by decide)
  rcases sc with _ | s
  · rcases ec with _ | e
    · exact extends_trans x1 x2
    · exact extends_trans (extends_trans x1 x2)
        (setColF_extends o2 "OIG_END_DATE" (fun r => getCellR r e) m4base)
  · have c3 : (setColF o2 "OIG_START_DATE" (fun r => getCellR r s)).cols
        = o2.cols ++ ["OIG_START_DATE"] :=
      setColF_fresh_cols o2 _ _ m3
    have x3 := setColF_extends o2 "OIG_START_DATE" (fun r => getCellR r s) m3
    rcases ec with _ | e
    · exact extends_trans (extends_trans x1 x2) x3
    · have m4 : "OIG_END_DATE"
          ∉ (setColF o2 "OIG_START_DATE" (fun r => getCellR r s)).cols := by
        rw [c3]
        exact notMem_append_singleton m4base (by decide)
      exact extends_trans (extends_trans (extends_trans x1 x2) x3)
        (setColF_extends _ "OIG_END_DATE" (fun r => getCellR r e) m4)

theorem empWithUp_extends (emp : Table)
    (h1 : "EMP_LAST_UP" ∉ emp.cols) (h2 : "EMP_FIRST_UP" ∉ emp.cols) :
    Extends emp (empWithUp emp) := by
  unfold empWithUp
  have c1 := setColF_fresh_cols emp "EMP_LAST_UP"
    (fun r => empNormField (getCellR r "LAST_NAME")) h1
  have x1 := setColF_extends emp "EMP_LAST_UP"
    (fun r => empNormField (getCellR r "LAST_NAME")) h1
  have m2 : "EMP_FIRST_UP"
      ∉ (setColF emp "EMP_LAST_UP" (fun r => empNormField (getCellR r "LAST_NAME"))).cols := by
    rw [c1]; exact notMem_append_singleton h2 (by decide)
  exact extends_trans x1 (setColF_extends _ "EMP_FIRST_UP"
    (fun r => empNormField (getCellR r "FIRST_NAME")) m2)

theorem oigPrepared_inv (oig o' sub dd : Table)
    (h : oigPrepared oig = .ok (o', sub, dd)) :
    ∃ fc lc sc ec, find_name_columns oig.cols = .ok (fc, lc, sc, ec)
      ∧ o' = oigMutated oig fc lc sc ec := by
  unfold oigPrepared at h
  rcases hf : find_name_columns oig.cols with e | ⟨fc, lc, sc, ec⟩ <;> rw [hf] at h
  · exact absurd h (by simp)
  · simp only [Except.ok.injEq, Prod.mk.injEq] at h
    exact ⟨fc, lc, sc, ec, rfl, h.1.symm⟩

/-- C7 (amended): the Matching Engine does not alter any pre-existing
column or cell of its inputs and its merged output is a fresh table, but
it does mutate both input tables by appending working columns to them
(`EMP_LAST_UP`/`EMP_FIRST_UP` to the roster; `OIG_FIRST_UP`/`OIG_LAST_UP`
and the date copies to the exclusion table): after a successful call each
input table is an extension of its original self. -/
theorem screen_extends_inputs (emp oig m e' o' : Table)
    (h1 : "EMP_LAST_UP" ∉ emp.cols) (h2 : "EMP_FIRST_UP" ∉ emp.cols)
    (h3 : "OIG_FIRST_UP" ∉ oig.cols) (h4 : "OIG_LAST_UP" ∉ oig.cols)
    (h5 : "OIG_START_DATE" ∉ oig.cols) (h6 : "OIG_END_DATE" ∉ oig.cols)
    (h : screen_against_oig emp oig = .ok (m, e', o')) :
    Extends emp e' ∧ Extends oig o' := by
  obtain ⟨sub, dd, hp, he, -⟩ := screen_ok_elim emp oig m e' o' h
  obtain ⟨fc, lc, sc, ec, -, ho⟩ := oigPrepared_inv oig o' sub dd hp
  constructor
  · rw [he]
    exact empWithUp_extends emp h1 h2
  · rw [ho]
    exact oigMutated_extends oig fc lc sc ec h3 h4 h5 h6

/-- C6 counterexample: running `screen_against_oig` twice on the same
tables does not return the same output — both runs succeed, but the
second run's merged table differs from the first run's (the first call
appended `OIG_START_DATE` to the exclusion table; on the rerun the end
date column resolves to that appended column, so the second merged table
carries an `OIG_END_DATE` the first did not). -/
theorem rerun_differs :
    (run1.toOption.map (fun r => r.1)).isSome = true
    ∧ (run2.toOption.map (fun r => r.1)).isSome = true
    ∧ run2.toOption.map (fun r => r.1) ≠ run1.toOption.map (fun r => r.1) := by
  decide

/-- C6 (amended): the Matching Engine is a deterministic function of its
input values — two invocations that receive equal roster and exclusion
tables return equal outputs.  (Re-invoking it on the same table objects
after a first call is not covered: the call mutates its arguments by
appending working columns, and the rerun can then resolve the date
columns differently.) -/
theorem screen_deterministic (emp1 oig1 emp2 oig2 : Table)
    (he : emp1 = emp2) (ho : oig1 = oig2) :
    screen_against_oig emp1 oig1 = screen_against_oig emp2 oig2 := by
  rw [he, ho]

/-- C6 witness: the determinism theorem applied at the concrete
roster/exclusion pair. -/
theorem screen_deterministic_witness :
    screen_against_oig empT oigT = screen_against_oig empT oigT :=
  screen_deterministic empT oigT empT oigT rfl rfl

/-- C7 counterexample: the Matching Engine call does NOT leave its inputs
unchanged — after `screen_against_oig empT oigT` both the exclusion table
and the roster table have new columns (`OIG_FIRST_UP`, `OIG_LAST_UP`,
`OIG_START_DATE`, resp. `EMP_LAST_UP`, `EMP_FIRST_UP`) that the caller's
tables did not have. -/
theorem screen_mutates_inputs :
    run1.toOption.map (fun r => r.2.2.cols) ≠ some oigT.cols
    ∧ run1.toOption.map (fun r => r.2.1.cols) ≠ some empT.cols := by
  decide

/-- C7 witness: the extension theorem applied at the concrete
roster/exclusion pair. -/
theorem screen_extends_inputs_witness :
    Extends empT scr1e ∧ Extends oigT scr1o :=
  screen_extends_inputs empT oigT scr1m scr1e scr1o
    (by decide) (by decide) (by decide) (by decide) (by decide) (by decide) (by decide)

/-- C1 witness: the inner-join characterisation applied at the concrete
roster/exclusion pair. -/
theorem screen_is_inner_join_witness :
    scr1m.rows = scr1e.rows.flatMap (fun er =>
      ((prep1dd.rows.find? (fun orr => decide (empKeyOf er = oigKeyOf orr))).map
        (fun orr => er ++ orr)).toList) :=
  screen_is_inner_join empT oigT scr1m scr1e scr1o prep1sub prep1dd
    (by decide) (by decide)

/-- C2 witness: the dedup theorem applied to an exclusion table carrying
two rows with the key (`DOE`, `JANE`) and different dates. -/
theorem dedup_first_wins_witness :
    (prep2dd.rows.countP (fun r => decide (oigKeyOf r = kJane))
        = if kJane ∈ prep2sub.rows.map oigKeyOf then 1 else 0)
    ∧ prep2dd.rows.find? (fun r => decide (oigKeyOf r = kJane))
        = prep2sub.rows.find? (fun r => decide (oigKeyOf r = kJane)) :=
  dedup_first_wins oigT2 prep2o prep2sub prep2dd kJane (by decide)

/-- C9 witness: the pagination theorem applied to the 100-row match
table. -/
theorem render_paginates_witness :
    ((make_pdf_pages "April 05, 2025" m100).head?.map headerCount = some 1)
    ∧ (∀ p ∈ (make_pdf_pages "April 05, 2025" m100).tail, headerCount p = 0)
    ∧ (∀ p ∈ (make_pdf_pages "April 05, 2025" m100).dropLast, dataCount p = 45)
    ∧ (∀ p, (make_pdf_pages "April 05, 2025" m100).getLast? = some p → dataCount p < 45)
    ∧ (make_pdf_pages "April 05, 2025" m100).map dataCount = [45, 45, 10]
    ∧ (make_pdf_pages "April 05, 2025" m100).map headerCount = [1, 0, 0]
    ∧ (make_pdf_pages "April 05, 2025" m100).length = 3 :=
  render_paginates "April 05, 2025" m100 (by decide)

theorem parse_first_no_comma (s : PyStr) (h : (',' : Char) ∉ s) :
    parse_first s = [] := by
  unfold parse_first
  rw [splitComma_snd]
  have ha : s.any (fun c => c == ',') = false := by
    rw [List.any_eq_false]
    intro x hx
    simp only [beq_iff_eq]
    exact fun he => h (he ▸ hx)
  rw [ha]
  rfl

theorem pyToUpper_space (c : Char) (h : pyIsSpace c = true) : pyToUpper c = c := by
  unfold pyIsSpace at h
  simp only [Bool.or_eq_true, beq_iff_eq] at h
  rcases h with ((((h | h) | h) | h) | h) | h <;> subst h <;> decide

theorem pyStrip_all_space (s : PyStr) (h : s.all pyIsSpace = true) :
    pyStrip s = [] := by
  unfold pyStrip
  have h1 : s.dropWhile pyIsSpace = [] := by
    rw [List.dropWhile_eq_nil_iff]
    intro x hx
    exact List.all_eq_true.mp h x hx
  rw [h1]
  rfl

theorem normField_blank (f : Cell)
    (hf : f = none ∨ ∃ s, f = some s ∧ s.all pyIsSpace = true) :
    normField f = [] := by
  rcases hf with h | ⟨s, hs, hall⟩
  · rw [h]; rfl
  · rw [hs]
    show pyStrip (pyUpperS s) = []
    have hupper : pyUpperS s = s := by
      unfold pyUpperS
      have hm : s.map pyToUpper = s.map id :=
        List.map_congr_left (fun a ha => pyToUpper_space a (List.all_eq_true.mp hall a ha))
      rw [hm, List.map_id]
    rw [hupper]
    exact pyStrip_all_space s hall

/-- C10: the engine normalizes a missing exclusion name field to the empty
string before key building (`fillna("")`), so a roster entry whose raw
full name has no comma (hence empty first name) produces exactly one
MatchRecord whenever some exclusion row has an equal normalized last name
and a missing-or-blank first-name field. -/
theorem blank_first_matches (id name : PyStr) (xs : List (Cell × Cell)) (l f : Cell)
    (hmem : (l, f) ∈ xs)
    (hnc : (',' : Char) ∉ name)
    (hl : normField l = pyStrip (pyUpperS (parse_last name)))
    (hf : f = none ∨ ∃ s, f = some s ∧ s.all pyIsSpace = true) :
    normField none = []
    ∧ (mergedRowsOf (screen_against_oig (empT1 id name) (oigT1 xs))).length = 1
    ∧ ∀ r ∈ mergedRowsOf (screen_against_oig (empT1 id name) (oigT1 xs)),
        getCellR r "ID" = some id ∧ getCellR r "EMPLOYEE" = some name := by
  have hfirst : parse_first name = [] := parse_first_no_comma name hnc
  have hkey : empKeyOf (empRow1 id name)
      = [some (pyStrip (pyUpperS (parse_last name))), some []] := by
    show [some (pyStrip (pyUpperS (parse_last name))),
        some (pyStrip (pyUpperS (parse_first name)))] = _
    rw [hfirst]
    rfl
  have hrows : mergedRowsOf (screen_against_oig (empT1 id name) (oigT1 xs))
      = (((oigT1dd xs).rows.filter
          (fun rr => decide (empKeyOf (empRow1 id name) = oigKeyOf rr))).map
        (fun rr => empRow1 id name ++ rr)) ++ [] := rfl
  have hsubmem : ([("OIG_LAST_UP", some (normField l)),
      ("OIG_FIRST_UP", some (normField f))]) ∈ (oigT1sub xs).rows :=
    List.mem_map_of_mem _ (List.mem_map_of_mem _
      (List.mem_map_of_mem _ (List.mem_map_of_mem _ hmem)))
  have hkmem : empKeyOf (empRow1 id name) ∈ (oigT1sub xs).rows.map oigKeyOf := by
    rw [hkey, ← hl, ← normField_blank f hf]
    exact List.mem_map_of_mem oigKeyOf hsubmem
  have hdd : (oigT1dd xs).rows = dedupBy oigKeyOf (oigT1sub xs).rows [] := rfl
  refine ⟨rfl, ?_, ?_⟩
  · rw [hrows, List.append_nil, List.length_map, ← List.countP_eq_length_filter]
    have hcong : ((oigT1dd xs).rows.countP
          (fun rr => decide (empKeyOf (empRow1 id name) = oigKeyOf rr)))
        = ((oigT1dd xs).rows.countP
          (fun rr => decide (oigKeyOf rr = empKeyOf (empRow1 id name)))) :=
      List.countP_congr (fun x _ => by
        simp only [decide_eq_true_eq]
        exact ⟨Eq.symm, Eq.symm⟩)
    rw [hcong, hdd, dedupBy_countP oigKeyOf (empKeyOf (empRow1 id name))
      (oigT1sub xs).rows []]
    simp [hkmem]
  · intro r hr
    rw [hrows, List.append_nil] at hr
    obtain ⟨rr, -, hrr⟩ := List.mem_map.mp hr
    rw [← hrr]
    exact ⟨rfl, rfl⟩

/-- C10 witness: roster entry `SMITH` (no comma) against an exclusion row
with last name ` smith ` and a missing first-name field. -/
theorem blank_first_matches_witness :
    normField none = []
    ∧ (mergedRowsOf (screen_against_oig (empT1 (pstr "7") (pstr "SMITH"))
        (oigT1 [(some (pstr " smith "), none)]))).length = 1
    ∧ ∀ r ∈ mergedRowsOf (screen_against_oig (empT1 (pstr "7") (pstr "SMITH"))
        (oigT1 [(some (pstr " smith "), none)])),
        getCellR r "ID" = some (pstr "7") ∧ getCellR r "EMPLOYEE" = some (pstr "SMITH") :=
  blank_first_matches (pstr "7") (pstr "SMITH") [(some (pstr " smith "), none)]
    (some (pstr " smith ")) none (by decide) (by decide) (by decide) (Or.inl rfl)

end OIG
